import Mathlib

/-!
Verification development for the Skull King scorer (`skull-king-scorer`).

The core under verification is the round/phase state machine and scoring
engine of the React component (the version in `src/unnamed/part_001`, which
is the one carrying the `finishRound` trick-total validation described in
the specification).  React `useState` cells become fields of a `GameState`
record; each event handler becomes a pure function `GameState → GameState`
(or `Except` for the fallible `finishRound`).  JavaScript objects keyed by
integer player indices (`Record<number, T>`) become association lists
sorted by key, which matches the ascending integer-key enumeration order of
`Object.entries` / `Object.values`.  The deep clones performed by the code
when taking or restoring snapshots are the identity on immutable Lean
values, so snapshotting simply copies the fields.
-/

namespace SkullKing

/-- Source `interface PlayerRoundData`: one player's inputs for the current round. -/
structure PlayerRoundData where
  bid : Int
  tricks : Int
  piratesCapture : Int
  skullKingCapture : Bool
deriving Repr, DecidableEq

/-- Source `interface Player`. -/
structure Player where
  name : String
  totalScore : Int
deriving Repr, DecidableEq

/-- Source `interface RoundScore extends PlayerRoundData`, adding `score`. -/
structure RoundScore extends PlayerRoundData where
  score : Int
deriving Repr, DecidableEq

/-- Source `interface GameHistoryEntry`. -/
structure GameHistoryEntry where
  round : Int
  scores : List (Nat × RoundScore)
deriving Repr, DecidableEq

/-- Source `type RoundPhase`, with values bidding, scoring, complete. -/
inductive RoundPhase where
  | bidding
  | scoring
  | complete
deriving Repr, DecidableEq

/-- Source `interface PhaseSnapshot`: a full copy of the live game fields. -/
structure PhaseSnapshot where
  roundData : List (Nat × PlayerRoundData)
  players : List Player
  currentRound : Int
  roundPhase : RoundPhase
  gameHistory : List GameHistoryEntry
deriving Repr, DecidableEq

/-- The session state: the component's persisted `useState` cells
(`gameStarted`, `players`, `currentRound`, `roundPhase`, `roundData`,
`gameHistory`, `phaseHistory`).  Transient UI cells (`playerName`,
`showHistory`, `editingBid`) are presentation-only and out of the core. -/
structure GameState where
  gameStarted : Bool
  players : List Player
  currentRound : Int
  roundPhase : RoundPhase
  roundData : List (Nat × PlayerRoundData)
  gameHistory : List GameHistoryEntry
  phaseHistory : List PhaseSnapshot
deriving Repr, DecidableEq

/-- Lookup in an integer-keyed record (`obj[k]`, `undefined` ↦ `none`). -/
def rget {α : Type} (m : List (Nat × α)) (k : Nat) : Option α :=
  match m with
  | [] => none
  | (k0, v0) :: rest => if k = k0 then some v0 else rget rest k

/-- Write `{ ...obj, [k]: v }` on an integer-keyed record.  JavaScript
enumerates integer-like keys in ascending order, so the list is kept
sorted by key; an existing binding is replaced in place. -/
def rset {α : Type} (m : List (Nat × α)) (k : Nat) (v : α) : List (Nat × α) :=
  match m with
  | [] => [(k, v)]
  | (k0, v0) :: rest =>
    if k = k0 then (k, v) :: rest
    else if k < k0 then (k, v) :: (k0, v0) :: rest
    else (k0, v0) :: rset rest k v

/-- Build the record with keys `0..n-1` and value `f i` at key `i`
(the `players.forEach((_, i) => { data[i] = ... })` pattern). -/
def tabulate {α : Type} (n : Nat) (f : Nat → α) : List (Nat × α) :=
  (List.range n).map (fun i => (i, f i))

/-- The all-zero `PlayerRoundData` created at the start of each round:
`{ bid: 0, tricks: 0, piratesCapture: 0, skullKingCapture: false }`. -/
def freshRoundData : PlayerRoundData :=
  { bid := 0, tricks := 0, piratesCapture := 0, skullKingCapture := false }

/-- Initial session state: the documented defaults of every persisted field
(`false`, `[]`, `1`, `'bidding'`, `{}`, `[]`, `[]`). -/
def initialState : GameState :=
  { gameStarted := false, players := [], currentRound := 1,
    roundPhase := RoundPhase.bidding, roundData := [], gameHistory := [],
    phaseHistory := [] }

/-- JavaScript `String.prototype.trim`: strip leading and trailing
whitespace.  Defined structurally on the character list (Lean's own
`String.trim` is defined by well-founded recursion on byte positions and
does not evaluate inside proofs). -/
def jsTrim (s : String) : String :=
  String.mk (((s.toList.dropWhile Char.isWhitespace).reverse.dropWhile
    Char.isWhitespace).reverse)

/-- Operation `addPlayer`: guarded by `playerName.trim() && players.length < 6`;
appends `{ name: playerName.trim(), totalScore: 0 }`. -/
def addPlayer (s : GameState) (playerName : String) : GameState :=
  if jsTrim playerName ≠ "" ∧ s.players.length < 6 then
    { s with players := s.players ++ [{ name := jsTrim playerName, totalScore := 0 }] }
  else s

/-- Operation `removePlayer`: keep every index other than the given one. -/
def removePlayer (s : GameState) (index : Nat) : GameState :=
  { s with players := s.players.eraseIdx index }

/-- The snapshot taken by `savePhaseSnapshot` / `finishRound`: a deep clone
of `{ roundData, players, currentRound, roundPhase, gameHistory }`, which on
immutable values is just the tuple of fields. -/
def mkSnapshot (s : GameState) : PhaseSnapshot :=
  { roundData := s.roundData, players := s.players,
    currentRound := s.currentRound, roundPhase := s.roundPhase,
    gameHistory := s.gameHistory }

/-- The shared push pattern of `savePhaseSnapshot` and `finishRound`:
`newHistory = [...phaseHistory, snapshot]; if (newHistory.length > 20)
newHistory.shift();`. -/
def pushSnapshot (log : List PhaseSnapshot) (snap : PhaseSnapshot) : List PhaseSnapshot :=
  let newHistory := log ++ [snap]
  if newHistory.length > 20 then newHistory.tail else newHistory

/-- Operation `savePhaseSnapshot`: push a snapshot of the current state. -/
def savePhaseSnapshot (s : GameState) : GameState :=
  { s with phaseHistory := pushSnapshot s.phaseHistory (mkSnapshot s) }

/-- Operation `performUndo`: no-op on an empty log; otherwise pop the most recent
snapshot and restore its five fields (deep-cloned, i.e. copied). -/
def performUndo (s : GameState) : GameState :=
  match s.phaseHistory.getLast? with
  | none => s
  | some snap =>
    { s with
      phaseHistory := s.phaseHistory.dropLast,
      roundData := snap.roundData, players := snap.players,
      currentRound := snap.currentRound, roundPhase := snap.roundPhase,
      gameHistory := snap.gameHistory }

/-- Operation `startGame`: guarded by two players or more; fills `roundData` with
fresh zero entries for every player index, sets `gameStarted`, clears the
undo log.  (It does not write `currentRound` or `roundPhase`.) -/
def startGame (s : GameState) : GameState :=
  if 2 ≤ s.players.length then
    { s with
      roundData := tabulate s.players.length (fun _ => freshRoundData),
      gameStarted := true, phaseHistory := [] }
  else s

/-- Operation `setBid`: spread the previous entry and overwrite its bid.
When `playerIndex` is absent, the JavaScript spread of `undefined` inserts
an object carrying only `bid`; the remaining fields are `undefined` at
runtime and are modelled here by the zero/false defaults.  No theorem below
depends on the defaulted fields of such an entry — only on the key set and
the `bid` field, on which this model agrees with the runtime. -/
def setBid (s : GameState) (playerIndex : Nat) (value : Int) : GameState :=
  { s with
    roundData := rset s.roundData playerIndex
      { ((rget s.roundData playerIndex).getD freshRoundData) with bid := value } }

/-- Operation `updateTricks`: no-op when `prev[playerIndex]` is absent; otherwise
clamps `tricks + delta` to `[0, currentRound]` via
`Math.max(0, Math.min(currentRound, ...))`. -/
def updateTricks (s : GameState) (playerIndex : Nat) (delta : Int) : GameState :=
  match rget s.roundData playerIndex with
  | none => s
  | some current =>
    { s with
      roundData := rset s.roundData playerIndex
        { current with tricks := max 0 (min s.currentRound (current.tricks + delta)) } }

/-- Operation `updatePiratesCapture`: no-op when absent; clamps to `[0, 5]`. -/
def updatePiratesCapture (s : GameState) (playerIndex : Nat) (delta : Int) : GameState :=
  match rget s.roundData playerIndex with
  | none => s
  | some current =>
    { s with
      roundData := rset s.roundData playerIndex
        { current with piratesCapture := max 0 (min 5 (current.piratesCapture + delta)) } }

/-- Operation `toggleSkullKingCapture`: no-op when absent; otherwise negates the flag. -/
def toggleSkullKingCapture (s : GameState) (playerIndex : Nat) : GameState :=
  match rget s.roundData playerIndex with
  | none => s
  | some current =>
    { s with
      roundData := rset s.roundData playerIndex
        { current with skullKingCapture := !current.skullKingCapture } }

/-- Function `calculateScore`: the scoring engine.  It reads `currentRound` from the
enclosing component scope, passed here as a parameter. -/
def calculateScore (data : PlayerRoundData) (currentRound : Int) : Int :=
  if data.bid = 0 then
    if data.tricks = 0 then currentRound * 10
    else -(currentRound * 10)
  else
    if data.bid = data.tricks then
      data.tricks * 20 + data.piratesCapture * 30 + (if data.skullKingCapture then 50 else 0)
    else (-(|data.bid - data.tricks|)) * 10

/-- Operation `confirmBids`: snapshot, then move the phase to scoring. -/
def confirmBids (s : GameState) : GameState :=
  { savePhaseSnapshot s with roundPhase := RoundPhase.scoring }

/-- The ways `finishRound` can fail: the explicit trick-total validation
(`alert`), or the `TypeError` the code would raise by destructuring
`roundData[i]` for a player index with no entry. -/
inductive FinishError where
  | invalidTrickTotal (total expected : Int)
  | missingRoundData
deriving Repr, DecidableEq

deriving instance DecidableEq for Except

/-- Value of `entry.scores[i]?.score ?? 0`: a history entry's contribution to player
`i`'s recomputed total. -/
def entryContribution (e : GameHistoryEntry) (i : Nat) : Int :=
  ((rget e.scores i).map RoundScore.score).getD 0

/-- Local `previousRounds`: the history with the entry at `findIndex(round ===
currentRound)` sliced out (`[...slice(0, idx), ...slice(idx + 1)]`), or the
whole history when no entry matches. -/
def historyWithoutRound (hist : List GameHistoryEntry) (r : Int) : List GameHistoryEntry :=
  match hist.findIdx? (fun e => e.round = r) with
  | some idx => hist.take idx ++ hist.drop (idx + 1)
  | none => hist

/-- Local `totalTricks`: the reduce of all round-data tricks with + from 0. -/
def finishTotalTricks (s : GameState) : Int :=
  (s.roundData.map (fun kv => kv.2.tricks)).foldl (· + ·) 0

/-- Value of `calculateScore(roundData[i])`: the fresh score computed for player `i`
during `finishRound`. -/
def finishScore (s : GameState) (i : Nat) : Int :=
  calculateScore ((rget s.roundData i).getD freshRoundData) s.currentRound

/-- Local `roundScores`: the data-with-score records collected for every player
index, in ascending key order. -/
def finishRoundScores (s : GameState) : List (Nat × RoundScore) :=
  tabulate s.players.length (fun i =>
    { toPlayerRoundData := (rget s.roundData i).getD freshRoundData,
      score := finishScore s i })

/-- Local `updatedPlayers`: each player's total recomputed from scratch —
`previousRounds.reduce((sum, entry) => sum + (entry.scores[i]?.score ?? 0),
0)` plus the fresh score. -/
def finishUpdatedPlayers (s : GameState) : List Player :=
  s.players.mapIdx (fun i player =>
    { player with totalScore :=
        ((historyWithoutRound s.gameHistory s.currentRound).foldl
          (fun sum e => sum + entryContribution e i) 0) + finishScore s i })

/-- Local `newEntry`: the record of `currentRound` and `roundScores`. -/
def finishNewEntry (s : GameState) : GameHistoryEntry :=
  { round := s.currentRound, scores := finishRoundScores s }

/-- Local `updatedHistory`: replace the existing entry for `currentRound` in
place, or append a new one. -/
def finishUpdatedHistory (s : GameState) : List GameHistoryEntry :=
  match s.gameHistory.findIdx? (fun e => e.round = s.currentRound) with
  | some idx => s.gameHistory.take idx ++ [finishNewEntry s] ++ s.gameHistory.drop (idx + 1)
  | none => s.gameHistory ++ [finishNewEntry s]

/-- The post-update snapshot `finishRound` pushes before advancing to the
next round: updated players and history, but the old round number and the
phase recorded as `'scoring'`. -/
def finishSnapshot (s : GameState) : PhaseSnapshot :=
  { roundData := s.roundData, players := finishUpdatedPlayers s,
    currentRound := s.currentRound, roundPhase := RoundPhase.scoring,
    gameHistory := finishUpdatedHistory s }

/-- Operation `finishRound`.  Validates that the tricks of all `roundData` values sum
to `currentRound` (failing with the alert and touching nothing); recomputes
every player's total from scratch as `previousRounds` contributions plus
the fresh score; replaces the existing history entry for `currentRound` in
place or appends a new one; below round 10 pushes a post-update snapshot
(recorded phase `'scoring'`, old round number), resets `roundData` and
advances to the next round's bidding, otherwise completes the game. -/
def finishRound (s : GameState) : Except FinishError GameState :=
  if finishTotalTricks s ≠ s.currentRound then
    Except.error (FinishError.invalidTrickTotal (finishTotalTricks s) s.currentRound)
  else if ¬ ((List.range s.players.length).all (fun i => (rget s.roundData i).isSome)) then
    Except.error FinishError.missingRoundData
  else if s.currentRound < 10 then
    Except.ok
      { s with
        gameHistory := finishUpdatedHistory s, players := finishUpdatedPlayers s,
        phaseHistory := pushSnapshot s.phaseHistory (finishSnapshot s),
        roundData := tabulate (finishUpdatedPlayers s).length (fun _ => freshRoundData),
        currentRound := s.currentRound + 1, roundPhase := RoundPhase.bidding }
  else
    Except.ok
      { s with
        gameHistory := finishUpdatedHistory s, players := finishUpdatedPlayers s,
        roundPhase := RoundPhase.complete }

/-- The caller-observable state transition of `finishRound`: on a
validation failure the alert is shown and the state is left as is. -/
def runFinishRound (s : GameState) : GameState :=
  match finishRound s with
  | Except.ok s2 => s2
  | Except.error _ => s

/-- Operation `resetGame`: zero every total, return to the setup screen defaults. -/
def resetGame (s : GameState) : GameState :=
  { s with
    players := s.players.map (fun p => { p with totalScore := 0 }),
    gameStarted := false, currentRound := 1, roundPhase := RoundPhase.bidding,
    roundData := [], gameHistory := [], phaseHistory := [] }

/-- Operation `clearPlayers` (after the caller's confirmation). -/
def clearPlayers (s : GameState) : GameState :=
  { s with players := [] }

/-- Operation `endGameEarly` (after the caller's confirmation). -/
def endGameEarly (s : GameState) : GameState :=
  { s with roundPhase := RoundPhase.complete }

/-- The session states reachable through the user interface.  Operations
are available exactly where the interface offers them: the setup screen
(`gameStarted = false`) exposes the player-roster operations and
`startGame`; a running game exposes bid editing in the bidding and scoring
phases, `confirmBids` in bidding, the trick/bonus editors and `finishRound`
in scoring, undo and early termination outside the complete phase, and
`resetGame` from the completion screen (restricted nowhere, since it only
narrows the reachable set to allow it everywhere). -/
inductive Reachable : GameState → Prop where
  | init : Reachable initialState
  | stepAddPlayer {s} (h : Reachable s) (hg : s.gameStarted = false) (name : String) :
      Reachable (addPlayer s name)
  | stepRemovePlayer {s} (h : Reachable s) (hg : s.gameStarted = false) (i : Nat) :
      Reachable (removePlayer s i)
  | stepClearPlayers {s} (h : Reachable s) (hg : s.gameStarted = false) :
      Reachable (clearPlayers s)
  | stepStartGame {s} (h : Reachable s) (hg : s.gameStarted = false) :
      Reachable (startGame s)
  | stepSetBid {s} (h : Reachable s) (hg : s.gameStarted = true)
      (hp : s.roundPhase ≠ RoundPhase.complete) (i : Nat) (v : Int) :
      Reachable (setBid s i v)
  | stepConfirmBids {s} (h : Reachable s) (hg : s.gameStarted = true)
      (hp : s.roundPhase = RoundPhase.bidding) : Reachable (confirmBids s)
  | stepUpdateTricks {s} (h : Reachable s) (hg : s.gameStarted = true)
      (hp : s.roundPhase = RoundPhase.scoring) (i : Nat) (d : Int) :
      Reachable (updateTricks s i d)
  | stepUpdatePirates {s} (h : Reachable s) (hg : s.gameStarted = true)
      (hp : s.roundPhase = RoundPhase.scoring) (i : Nat) (d : Int) :
      Reachable (updatePiratesCapture s i d)
  | stepToggleSkullKing {s} (h : Reachable s) (hg : s.gameStarted = true)
      (hp : s.roundPhase = RoundPhase.scoring) (i : Nat) :
      Reachable (toggleSkullKingCapture s i)
  | stepFinishRound {s s2} (h : Reachable s) (hg : s.gameStarted = true)
      (hp : s.roundPhase = RoundPhase.scoring) (hok : finishRound s = Except.ok s2) :
      Reachable s2
  | stepPerformUndo {s} (h : Reachable s) (hg : s.gameStarted = true)
      (hp : s.roundPhase ≠ RoundPhase.complete) : Reachable (performUndo s)
  | stepEndGameEarly {s} (h : Reachable s) (hg : s.gameStarted = true)
      (hp : s.roundPhase ≠ RoundPhase.complete) : Reachable (endGameEarly s)
  | stepResetGame {s} (h : Reachable s) : Reachable (resetGame s)

/-- Checkpoint index of a round/phase pair: two checkpoints per round
(bidding, then scoring), with completion past them all.  Snapshots are
pushed only at strictly increasing checkpoint indices, which is what bounds
the undo log in every reachable state. -/
def phaseOffset : RoundPhase → Int
  | RoundPhase.bidding => 0
  | RoundPhase.scoring => 1
  | RoundPhase.complete => 2

/-- Checkpoint index of a round number and phase. -/
def cIdx (r : Int) (p : RoundPhase) : Int := 2 * r + phaseOffset p

/-- Checkpoint index of a stored snapshot. -/
def snapIdx (e : PhaseSnapshot) : Int := cIdx e.currentRound e.roundPhase

/-- Checkpoint index of the live state. -/
def stateIdx (s : GameState) : Int := cIdx s.currentRound s.roundPhase

/-- The state invariant maintained by every user-interface operation. -/
structure Inv (s : GameState) : Prop where
  round_lb : 1 ≤ s.currentRound
  round_ub : s.currentRound ≤ 10
  setup_defaults : s.gameStarted = false →
    s.currentRound = 1 ∧ s.roundPhase = RoundPhase.bidding ∧ s.phaseHistory = []
  snap_round_lb : ∀ e ∈ s.phaseHistory, 1 ≤ e.currentRound
  snap_round_ub : ∀ e ∈ s.phaseHistory, e.currentRound ≤ 10
  snap_idx_ub : ∀ e ∈ s.phaseHistory, snapIdx e ≤ 20
  chain : s.phaseHistory.Pairwise (fun a b => snapIdx a < snapIdx b)
  below : ∀ e ∈ s.phaseHistory, snapIdx e < stateIdx s
  hist_nodup : (s.gameHistory.map GameHistoryEntry.round).Nodup
  snap_hist_nodup : ∀ e ∈ s.phaseHistory, (e.gameHistory.map GameHistoryEntry.round).Nodup

/-- A concrete mid-game scoring state: three players in round 1 with bids
`(0, 1, 0)` and tricks `(0, 1, 0)` recorded. -/
def exScoringState : GameState :=
  { gameStarted := true,
    players := [{ name := "A", totalScore := 0 }, { name := "B", totalScore := 0 },
                { name := "C", totalScore := 0 }],
    currentRound := 1, roundPhase := RoundPhase.scoring,
    roundData := [(0, { bid := 0, tricks := 0, piratesCapture := 0, skullKingCapture := false }),
                  (1, { bid := 1, tricks := 1, piratesCapture := 0, skullKingCapture := false }),
                  (2, { bid := 0, tricks := 0, piratesCapture := 0, skullKingCapture := false })],
    gameHistory := [], phaseHistory := [] }

/-- The same scoring state with all tricks still zero, so the trick total
`0` mismatches the round number `1`. -/
def exBadSumState : GameState :=
  { exScoringState with
    roundData := [(0, freshRoundData), (1, freshRoundData), (2, freshRoundData)] }

/-- A setup-screen state with two players but a round counter of 5 — a
state `startGame` accepts but never rewinds. -/
def exLateSetupState : GameState :=
  { gameStarted := false,
    players := [{ name := "A", totalScore := 0 }, { name := "B", totalScore := 0 }],
    currentRound := 5, roundPhase := RoundPhase.scoring,
    roundData := [], gameHistory := [], phaseHistory := [] }

/-- The setup state after entering two pirates. -/
def exTwoPlayerSetup : GameState := addPlayer (addPlayer initialState ("A")) ("B")

/-- Twenty-five identical snapshots, for exercising the undo-log bound. -/
def ex25Snaps : List PhaseSnapshot := List.replicate 25 (mkSnapshot initialState)

/-- The state after finishing the round of `exScoringState`. -/
def exAfterFinish : GameState := runFinishRound exScoringState

/-! ## Record-map lemmas -/

lemma rget_rset_self {α : Type} (m : List (Nat × α)) (k : Nat) (v : α) :
    rget (rset m k v) k = some v := by
  induction m with
  | nil => simp [rset, rget]
  | cons kv rest ih =>
    obtain ⟨k0, v0⟩ := kv
    by_cases h : k = k0
    · simp [rset, rget, h]
    · by_cases h2 : k < k0 <;> simp [rset, rget, h, h2, ih]

lemma rget_append {α : Type} (l1 l2 : List (Nat × α)) (k : Nat) :
    rget (l1 ++ l2) k = ((rget l1 k).map some).getD (rget l2 k) := by
  induction l1 with
  | nil => simp [rget]
  | cons kv rest ih =>
    obtain ⟨k0, v0⟩ := kv
    by_cases h : k = k0 <;> simp [rget, h, ih]

lemma rget_tabulate_ge {α : Type} (n : Nat) (f : Nat → α) (i : Nat) (h : n ≤ i) :
    rget (tabulate n f) i = none := by
  induction n with
  | zero => simp [tabulate, rget]
  | succ m ih =>
    rw [tabulate, List.range_succ, List.map_append]
    rw [show (List.range m).map (fun j => (j, f j)) = tabulate m f from rfl]
    rw [rget_append, ih (by omega)]
    simp [rget]
    omega

lemma rget_tabulate {α : Type} (n : Nat) (f : Nat → α) (i : Nat) (h : i < n) :
    rget (tabulate n f) i = some (f i) := by
  induction n with
  | zero => omega
  | succ m ih =>
    rw [tabulate, List.range_succ, List.map_append]
    rw [show (List.range m).map (fun j => (j, f j)) = tabulate m f from rfl]
    rw [rget_append]
    by_cases h2 : i < m
    · rw [ih h2]; simp
    · have hmi : i = m := by omega
      rw [rget_tabulate_ge m f i (by omega)]
      simp [rget, hmi]

/-! ## Fold and bound lemmas -/

lemma foldl_add_eq_sum {α : Type} (c : α → Int) (l : List α) (a : Int) :
    l.foldl (fun acc e => acc + c e) a = a + (l.map c).sum := by
  induction l generalizing a with
  | nil => simp
  | cons x xs ih => simp only [List.foldl_cons, List.map_cons, List.sum_cons, ih]; ring

lemma pairwise_lt_length_le (l : List Int) (lo hi : Int) (hlh : lo ≤ hi + 1)
    (hp : l.Pairwise (· < ·)) (hbounds : ∀ x ∈ l, lo ≤ x ∧ x ≤ hi) :
    (l.length : Int) ≤ hi - lo + 1 := by
  induction l generalizing lo with
  | nil => simp; omega
  | cons x xs ih =>
    rw [List.pairwise_cons] at hp
    have h1 : lo ≤ x := (hbounds x (List.mem_cons_self x xs)).1
    have h2 : x ≤ hi := (hbounds x (List.mem_cons_self x xs)).2
    have hnext := ih (x + 1) (by omega) hp.2
      (fun y hy => ⟨by have := hp.1 y hy; omega, (hbounds y (List.mem_cons_of_mem x hy)).2⟩)
    simp only [List.length_cons]
    push_cast
    omega

/-! ## Scoring engine: claims C1 and C9 -/

/-- C1: over the valid input domain (`bid, tricks ∈ [0, currentRound]`,
`piratesCapture ∈ [0, 5]`), the scoring engine returns `10·currentRound`
for a kept zero bid, `-10·currentRound` for a failed zero bid,
`20·tricks + 30·piratesCapture` plus `50` exactly when the Skull King was
captured for a met positive bid, and `-10·|bid − tricks|` for a missed
positive bid. -/
theorem calculateScore_matches_rules (b t p : Int) (sk : Bool) (r : Int)
    (hb0 : 0 ≤ b) (hbr : b ≤ r) (ht0 : 0 ≤ t) (htr : t ≤ r) (hp0 : 0 ≤ p) (hp5 : p ≤ 5) :
    (b = 0 ∧ t = 0 →
      calculateScore ⟨b, t, p, sk⟩ r = 10 * r) ∧
    (b = 0 ∧ 0 < t →
      calculateScore ⟨b, t, p, sk⟩ r = -(10 * r)) ∧
    (0 < b ∧ b = t →
      calculateScore ⟨b, t, p, sk⟩ r = 20 * t + 30 * p + (if sk then 50 else 0)) ∧
    (0 < b ∧ b ≠ t →
      calculateScore ⟨b, t, p, sk⟩ r = -(10 * |b - t|)) := by
  refine ⟨?_, ?_, ?_, ?_⟩ <;> rintro ⟨h1, h2⟩ <;>
    simp only [calculateScore]
  · simp [h1, h2]; ring
  · have : t ≠ 0 := by omega
    simp [h1, this]; ring
  · have hb : b ≠ 0 := by omega
    have ht : t ≠ 0 := by omega
    cases sk <;> simp [hb, ht, h2] <;> ring
  · have hb : b ≠ 0 := by omega
    simp [hb, h2]; ring

/-- C1 witness: the rules evaluated at the spec's example — bid 2, 2
tricks, one pirate and the Skull King captured in round 5 score 120. -/
theorem calculateScore_matches_rules_witness :
    calculateScore ⟨2, 2, 1, true⟩ 5 = 20 * 2 + 30 * 1 + (if true then 50 else 0) :=
  (calculateScore_matches_rules 2 2 1 true 5 (by decide) (by decide) (by decide)
    (by decide) (by decide) (by decide)).2.2.1 ⟨by decide, rfl⟩

/-- C9: every value the scoring engine returns — whatever the inputs,
valid or not — is an integer multiple of 10. -/
theorem calculateScore_multiple_of_ten (data : PlayerRoundData) (currentRound : Int) :
    (10 : Int) ∣ calculateScore data currentRound := by
  unfold calculateScore
  split_ifs with h1 h2 h3 h4
  · exact ⟨currentRound, by ring⟩
  · exact ⟨-currentRound, by ring⟩
  · exact ⟨2 * data.tricks + 3 * data.piratesCapture + 5, by ring⟩
  · exact ⟨2 * data.tricks + 3 * data.piratesCapture, by ring⟩
  · exact ⟨-(|data.bid - data.tricks|), by ring⟩

/-! ## Reset: claim C10 -/

/-- C10: `resetGame` keeps the player roster's length, order and names,
zeroing only each `totalScore`, and restores every other session field to
its documented default. -/
theorem resetGame_resets (s : GameState) :
    (resetGame s).players.map Player.name = s.players.map Player.name ∧
    (resetGame s).players.length = s.players.length ∧
    (∀ p ∈ (resetGame s).players, p.totalScore = 0) ∧
    (resetGame s).gameStarted = false ∧
    (resetGame s).currentRound = 1 ∧
    (resetGame s).roundPhase = RoundPhase.bidding ∧
    (resetGame s).roundData = [] ∧
    (resetGame s).gameHistory = [] ∧
    (resetGame s).phaseHistory = [] := by
  refine ⟨?_, ?_, ?_, rfl, rfl, rfl, rfl, rfl, rfl⟩
  · simp [resetGame]
  · simp [resetGame]
  · intro p hp
    simp only [resetGame, List.mem_map] at hp
    obtain ⟨q, _, rfl⟩ := hp
    rfl

/-! ## Undo-log push: claim C5 -/

lemma pushSnapshot_of_lt (log : List PhaseSnapshot) (snap : PhaseSnapshot)
    (h : log.length < 20) : pushSnapshot log snap = log ++ [snap] := by
  simp only [pushSnapshot, List.length_append, List.length_singleton]
  rw [if_neg (by omega)]

lemma foldl_pushSnapshot (l : List PhaseSnapshot) :
    ∀ acc : List PhaseSnapshot, acc.length ≤ 20 →
      l.foldl pushSnapshot acc = (acc ++ l).drop ((acc ++ l).length - 20) := by
  induction l with
  | nil =>
    intro acc h
    simp [Nat.sub_eq_zero_of_le h]
  | cons x xs ih =>
    intro acc h
    simp only [List.foldl_cons]
    rcases Nat.lt_or_ge acc.length 20 with hlt | hge
    · rw [pushSnapshot_of_lt acc x hlt, ih (acc ++ [x]) (by simp; omega)]
      simp [List.append_assoc]
    · have h20 : acc.length = 20 := by omega
      obtain ⟨a0, acc2, rfl⟩ : ∃ a0 acc2, acc = a0 :: acc2 := by
        cases acc with
        | nil => simp at h20
        | cons a t => exact ⟨a, t, rfl⟩
      have hlen : acc2.length = 19 := by simpa using h20
      have hps : pushSnapshot (a0 :: acc2) x = acc2 ++ [x] := by
        simp only [pushSnapshot, List.cons_append, List.length_cons, List.length_append,
          List.length_singleton, List.tail_cons]
        rw [if_pos (by omega)]
      rw [hps, ih (acc2 ++ [x]) (by simp [hlen])]
      rw [show ((acc2 ++ [x]) ++ xs) = acc2 ++ x :: xs from by simp]
      rw [show (acc2 ++ x :: xs).length - 20 = xs.length from by
        simp only [List.length_append, List.length_cons, hlen]; omega]
      rw [show ((a0 :: acc2) ++ x :: xs).length - 20 = xs.length + 1 from by
        simp only [List.length_append, List.length_cons, hlen]; omega]
      rw [show (a0 :: acc2) ++ x :: xs = a0 :: (acc2 ++ x :: xs) from by simp]
      rw [List.drop_succ_cons]

/-- C5: pushing keeps the undo log at no more than 20 snapshots, discarding
the oldest first; a sequence of 25 pushes onto an empty log leaves exactly
the 20 most recent snapshots, in order, with the oldest 5 gone. -/
theorem undoLog_bounded_fifo :
    (∀ l : List PhaseSnapshot, (l.foldl pushSnapshot []).length ≤ 20) ∧
    (∀ l : List PhaseSnapshot, l.length = 25 → l.foldl pushSnapshot [] = l.drop 5) := by
  constructor
  · intro l
    rw [foldl_pushSnapshot l [] (by simp)]
    simp only [List.nil_append, List.length_drop]
    omega
  · intro l hl
    rw [foldl_pushSnapshot l [] (by simp)]
    simp [hl]

/-- C5 witness: pushing 25 concrete snapshots leaves the last 20. -/
theorem undoLog_bounded_fifo_witness :
    (ex25Snaps.foldl pushSnapshot []).length ≤ 20 ∧
    ex25Snaps.foldl pushSnapshot [] = ex25Snaps.drop 5 :=
  ⟨undoLog_bounded_fifo.1 ex25Snaps,
   undoLog_bounded_fifo.2 ex25Snaps (by simp [ex25Snaps])⟩

/-! ## Silent no-op guards: claim C7 -/

/-- C7 counterexample: `setBid` on a player index absent from `roundData`
is not a no-op — the JavaScript `{ ...prev, [playerIndex]: {
...prev[playerIndex], bid: value } }` inserts a fresh (partial) entry at
the absent key. -/
theorem setBid_absent_not_noop : setBid initialState 0 5 ≠ initialState := by
  decide

/-- C7 amended: the precondition-not-met calls are silent no-ops — with the
exception of `setBid`, which on an absent player index inserts a new
`roundData` entry whose `bid` is the given value.  `updateTricks`,
`updatePiratesCapture` and `toggleSkullKingCapture` on an absent index,
`startGame` with fewer than two players, `addPlayer` at capacity or with an
all-whitespace name, and `undo` on an empty log all leave the session state
unchanged. -/
theorem guarded_noops (s : GameState) (i : Nat) (d v : Int) (nm : String) :
    (rget s.roundData i = none →
      updateTricks s i d = s ∧ updatePiratesCapture s i d = s ∧
      toggleSkullKingCapture s i = s ∧
      (rget (setBid s i v).roundData i).map PlayerRoundData.bid = some v) ∧
    (s.players.length < 2 → startGame s = s) ∧
    (6 ≤ s.players.length ∨ jsTrim nm = "" → addPlayer s nm = s) ∧
    (s.phaseHistory = [] → performUndo s = s) := by
  refine ⟨?_, ?_, ?_, ?_⟩
  · intro h
    refine ⟨?_, ?_, ?_, ?_⟩
    · simp [updateTricks, h]
    · simp [updatePiratesCapture, h]
    · simp [toggleSkullKingCapture, h]
    · simp [setBid, rget_rset_self]
  · intro h
    rw [startGame, if_neg (by omega)]
  · intro h
    rw [addPlayer, if_neg ?_]
    rintro ⟨h1, h2⟩
    rcases h with h | h
    · omega
    · exact h1 h
  · intro h
    simp [performUndo, h]

/-- C7 witness: each guard exercised at the empty initial state. -/
theorem guarded_noops_witness :
    (updateTricks initialState 0 1 = initialState ∧
     updatePiratesCapture initialState 0 1 = initialState ∧
     toggleSkullKingCapture initialState 0 = initialState ∧
     (rget (setBid initialState 0 5).roundData 0).map PlayerRoundData.bid = some 5) ∧
    startGame initialState = initialState ∧
    addPlayer initialState ("   ") = initialState ∧
    performUndo initialState = initialState := by
  have h := guarded_noops initialState 0 1 5 ("   ")
  exact ⟨h.1 rfl, h.2.1 (by decide), h.2.2.1 (Or.inr (by decide)), h.2.2.2 rfl⟩

/-! ## Validation failure: claim C2 -/

/-- C2: in the scoring phase, when the trick total across all players'
round data differs from the round number, `finishRound` signals the
validation failure (the alert carrying both numbers) and leaves the whole
session state unchanged, no matter how many times it is retried. -/
theorem finishRound_invalid_noop (s : GameState)
    (hphase : s.roundPhase = RoundPhase.scoring)
    (hsum : finishTotalTricks s ≠ s.currentRound) :
    finishRound s = Except.error
      (FinishError.invalidTrickTotal (finishTotalTricks s) s.currentRound) ∧
    ∀ n : Nat, runFinishRound^[n] s = s := by
  have herr : finishRound s = Except.error
      (FinishError.invalidTrickTotal (finishTotalTricks s) s.currentRound) := by
    rw [finishRound]
    exact if_pos hsum
  refine ⟨herr, ?_⟩
  have hrun : runFinishRound s = s := by
    rw [runFinishRound, herr]
  intro n
  induction n with
  | zero => rfl
  | succ m ih => rw [Function.iterate_succ_apply, hrun, ih]

/-- C2 witness: the three-zero-tricks round-1 scenario is rejected with the
mismatch `(0, 1)` and three retries leave the state untouched. -/
theorem finishRound_invalid_noop_witness :
    finishRound exBadSumState = Except.error (FinishError.invalidTrickTotal 0 1) ∧
    runFinishRound^[3] exBadSumState = exBadSumState := by
  have h := finishRound_invalid_noop exBadSumState rfl (by decide)
  exact ⟨h.1, h.2 3⟩

/-! ## Total-score recomputation: claim C3 -/

lemma finishUpdatedPlayers_length (s : GameState) :
    (finishUpdatedPlayers s).length = s.players.length := by
  simp [finishUpdatedPlayers]

lemma finishUpdatedPlayers_get (s : GameState) (i : Nat)
    (h : i < s.players.length) (h2 : i < (finishUpdatedPlayers s).length) :
    ((finishUpdatedPlayers s).get ⟨i, h2⟩).totalScore =
      ((historyWithoutRound s.gameHistory s.currentRound).map
        (fun e => entryContribution e i)).sum + finishScore s i := by
  unfold finishUpdatedPlayers
  rw [List.get_mapIdx s.players _ i h]
  simp [foldl_add_eq_sum]

lemma entryContribution_finishNewEntry (s : GameState) (i : Nat)
    (h : i < s.players.length) :
    entryContribution (finishNewEntry s) i = finishScore s i := by
  unfold entryContribution finishNewEntry finishRoundScores
  rw [rget_tabulate _ _ i h]
  rfl

lemma sum_contrib_finishUpdatedHistory (s : GameState) (i : Nat)
    (h : i < s.players.length) :
    ((finishUpdatedHistory s).map (fun e => entryContribution e i)).sum =
      ((historyWithoutRound s.gameHistory s.currentRound).map
        (fun e => entryContribution e i)).sum + finishScore s i := by
  unfold finishUpdatedHistory historyWithoutRound
  cases hfi : s.gameHistory.findIdx? (fun e => e.round = s.currentRound) with
  | none => simp [entryContribution_finishNewEntry s i h]
  | some idx =>
    simp only [List.map_append, List.sum_append, List.map_cons, List.map_nil,
      List.sum_cons, List.sum_nil, entryContribution_finishNewEntry s i h]
    ring

/-- The two success shapes of `finishRound`, shared by the claims about its
post-state: the returned state carries `finishUpdatedPlayers` and
`finishUpdatedHistory`. -/
lemma finishRound_ok_shape (s s2 : GameState) (hok : finishRound s = Except.ok s2) :
    s2.players = finishUpdatedPlayers s ∧ s2.gameHistory = finishUpdatedHistory s := by
  rw [finishRound] at hok
  split_ifs at hok with h1 h2 h3 <;>
    first
      | exact Except.noConfusion hok
      | (rw [Except.ok.injEq] at hok; rw [← hok]; exact ⟨rfl, rfl⟩)

/-- C3: whenever `finishRound` succeeds, every player's new `totalScore`
equals the sum of that player's contributions over the pre-state history
with the pre-existing entry for `currentRound` (if any) excluded, plus the
freshly computed score for `currentRound` — and therefore also equals the
sum of that player's scores over the entire post-state history, so replay
after undo can neither double-count a round nor keep a stale total. -/
theorem finishRound_totals (s s2 : GameState) (hok : finishRound s = Except.ok s2) :
    ∀ i (h2 : i < s2.players.length),
      (s2.players.get ⟨i, h2⟩).totalScore =
        (s2.gameHistory.map (fun e => entryContribution e i)).sum ∧
      (s2.players.get ⟨i, h2⟩).totalScore =
        ((historyWithoutRound s.gameHistory s.currentRound).map
          (fun e => entryContribution e i)).sum + finishScore s i := by
  obtain ⟨hp, hh⟩ := finishRound_ok_shape s s2 hok
  intro i h2
  have hlen : i < s.players.length := by
    rw [hp, finishUpdatedPlayers_length] at h2
    exact h2
  have hget : (s2.players.get ⟨i, h2⟩).totalScore =
      ((historyWithoutRound s.gameHistory s.currentRound).map
        (fun e => entryContribution e i)).sum + finishScore s i := by
    have h2' : i < (finishUpdatedPlayers s).length := by
      rw [finishUpdatedPlayers_length]; exact hlen
    calc (s2.players.get ⟨i, h2⟩).totalScore
        = ((finishUpdatedPlayers s).get ⟨i, h2'⟩).totalScore := by
          congr 1
          exact List.get_of_eq hp _
      _ = _ := finishUpdatedPlayers_get s i hlen h2'
  refine ⟨?_, hget⟩
  rw [hget, hh, sum_contrib_finishUpdatedHistory s i hlen]

/-- C3 witness: in the finished round-1 scenario, player 1's total `20`
equals the single history entry's score for them. -/
theorem finishRound_totals_witness :
    (exAfterFinish.players.get ⟨1, by decide⟩).totalScore =
      (exAfterFinish.gameHistory.map (fun e => entryContribution e 1)).sum :=
  (finishRound_totals exScoringState exAfterFinish (by decide) 1 (by decide)).1

/-! ## The reachability invariant -/

lemma phaseOffset_nonneg (p : RoundPhase) : 0 ≤ phaseOffset p := by
  cases p <;> simp [phaseOffset]

lemma phaseOffset_le_two (p : RoundPhase) : phaseOffset p ≤ 2 := by
  cases p <;> simp [phaseOffset]

lemma inv_log_length {s : GameState} (h : Inv s) : s.phaseHistory.length < 20 := by
  have hpw : (s.phaseHistory.map snapIdx).Pairwise (· < ·) := by
    rw [List.pairwise_map]
    exact h.chain
  have hb : ∀ x ∈ s.phaseHistory.map snapIdx, (2 : Int) ≤ x ∧ x ≤ 20 := by
    intro x hx
    obtain ⟨e, he, rfl⟩ := List.mem_map.mp hx
    refine ⟨?_, h.snap_idx_ub e he⟩
    have h1 := h.snap_round_lb e he
    have h2 := phaseOffset_nonneg e.roundPhase
    unfold snapIdx cIdx
    omega
  have hle := pairwise_lt_length_le (s.phaseHistory.map snapIdx) 2 20 (by omega) hpw hb
  rw [List.length_map] at hle
  omega

lemma inv_of_fields_eq {s s2 : GameState} (h : Inv s)
    (h1 : s2.currentRound = s.currentRound) (h2 : s2.roundPhase = s.roundPhase)
    (h3 : s2.phaseHistory = s.phaseHistory) (h4 : s2.gameHistory = s.gameHistory)
    (h5 : s2.gameStarted = s.gameStarted) : Inv s2 := by
  refine ⟨?_, ?_, ?_, ?_, ?_, ?_, ?_, ?_, ?_, ?_⟩
  · rw [h1]; exact h.round_lb
  · rw [h1]; exact h.round_ub
  · rw [h5, h1, h2, h3]; exact h.setup_defaults
  · rw [h3]; exact h.snap_round_lb
  · rw [h3]; exact h.snap_round_ub
  · rw [h3]; exact h.snap_idx_ub
  · rw [h3]; exact h.chain
  · rw [h3]; unfold stateIdx; rw [h1, h2]; exact h.below
  · rw [h4]; exact h.hist_nodup
  · rw [h3]; exact h.snap_hist_nodup

lemma inv_initialState : Inv initialState := by
  refine ⟨?_, ?_, ?_, ?_, ?_, ?_, ?_, ?_, ?_, ?_⟩ <;> simp [initialState]

lemma inv_addPlayer (s : GameState) (h : Inv s) (nm : String) : Inv (addPlayer s nm) := by
  refine inv_of_fields_eq h ?_ ?_ ?_ ?_ ?_ <;> (unfold addPlayer; split <;> rfl)

lemma inv_removePlayer (s : GameState) (h : Inv s) (i : Nat) : Inv (removePlayer s i) :=
  inv_of_fields_eq h rfl rfl rfl rfl rfl

lemma inv_clearPlayers (s : GameState) (h : Inv s) : Inv (clearPlayers s) :=
  inv_of_fields_eq h rfl rfl rfl rfl rfl

lemma inv_setBid (s : GameState) (h : Inv s) (i : Nat) (v : Int) : Inv (setBid s i v) :=
  inv_of_fields_eq h rfl rfl rfl rfl rfl

lemma inv_updateTricks (s : GameState) (h : Inv s) (i : Nat) (d : Int) :
    Inv (updateTricks s i d) := by
  unfold updateTricks
  cases rget s.roundData i with
  | none => exact h
  | some current => exact inv_of_fields_eq h rfl rfl rfl rfl rfl

lemma inv_updatePiratesCapture (s : GameState) (h : Inv s) (i : Nat) (d : Int) :
    Inv (updatePiratesCapture s i d) := by
  unfold updatePiratesCapture
  cases rget s.roundData i with
  | none => exact h
  | some current => exact inv_of_fields_eq h rfl rfl rfl rfl rfl

lemma inv_toggleSkullKingCapture (s : GameState) (h : Inv s) (i : Nat) :
    Inv (toggleSkullKingCapture s i) := by
  unfold toggleSkullKingCapture
  cases rget s.roundData i with
  | none => exact h
  | some current => exact inv_of_fields_eq h rfl rfl rfl rfl rfl

lemma inv_startGame (s : GameState) (h : Inv s) : Inv (startGame s) := by
  unfold startGame
  split
  · refine ⟨h.round_lb, h.round_ub, ?_, ?_, ?_, ?_, List.Pairwise.nil, ?_, h.hist_nodup, ?_⟩
    · intro hgs
      exact Bool.noConfusion hgs
    all_goals intro e he; exact absurd he (List.not_mem_nil e)
  · exact h

lemma snapIdx_mkSnapshot (s : GameState) : snapIdx (mkSnapshot s) = stateIdx s := rfl

lemma inv_confirmBids (s : GameState) (h : Inv s) (hg : s.gameStarted = true)
    (hp : s.roundPhase = RoundPhase.bidding) : Inv (confirmBids s) := by
  have hlen := inv_log_length h
  have hpush : pushSnapshot s.phaseHistory (mkSnapshot s) =
      s.phaseHistory ++ [mkSnapshot s] := pushSnapshot_of_lt _ _ hlen
  have hidx : stateIdx s = 2 * s.currentRound := by
    unfold stateIdx cIdx
    rw [hp]
    simp [phaseOffset]
  unfold confirmBids savePhaseSnapshot
  rw [hpush]
  refine ⟨h.round_lb, h.round_ub, ?_, ?_, ?_, ?_, ?_, ?_, h.hist_nodup, ?_⟩
  · intro hgs
    exact Bool.noConfusion (hg.symm.trans hgs)
  · intro e he
    rcases List.mem_append.mp he with he | he
    · exact h.snap_round_lb e he
    · rw [List.mem_singleton] at he
      subst he
      exact h.round_lb
  · intro e he
    rcases List.mem_append.mp he with he | he
    · exact h.snap_round_ub e he
    · rw [List.mem_singleton] at he
      subst he
      exact h.round_ub
  · intro e he
    rcases List.mem_append.mp he with he | he
    · exact h.snap_idx_ub e he
    · rw [List.mem_singleton] at he
      subst he
      rw [snapIdx_mkSnapshot, hidx]
      have := h.round_ub
      omega
  · refine List.pairwise_append.mpr ⟨h.chain, List.pairwise_singleton _ _, ?_⟩
    intro a ha b hb
    rw [List.mem_singleton] at hb
    subst hb
    rw [snapIdx_mkSnapshot]
    exact h.below a ha
  · intro e he
    have hidx2 : stateIdx { s with
        phaseHistory := s.phaseHistory ++ [mkSnapshot s],
        roundPhase := RoundPhase.scoring } = 2 * s.currentRound + 1 := by
      unfold stateIdx cIdx
      simp [phaseOffset]
    rw [show stateIdx { s with
        phaseHistory := s.phaseHistory ++ [mkSnapshot s],
        roundPhase := RoundPhase.scoring } = 2 * s.currentRound + 1 from hidx2]
    rcases List.mem_append.mp he with he | he
    · have := h.below e he
      rw [hidx] at this
      omega
    · rw [List.mem_singleton] at he
      subst he
      rw [snapIdx_mkSnapshot, hidx]
      omega
  · intro e he
    rcases List.mem_append.mp he with he | he
    · exact h.snap_hist_nodup e he
    · rw [List.mem_singleton] at he
      subst he
      exact h.hist_nodup

lemma nodup_finishUpdatedHistory (s : GameState)
    (h : (s.gameHistory.map GameHistoryEntry.round).Nodup) :
    ((finishUpdatedHistory s).map GameHistoryEntry.round).Nodup := by
  unfold finishUpdatedHistory
  cases hfi : s.gameHistory.findIdx? (fun e => e.round = s.currentRound) with
  | none =>
    rw [List.findIdx?_eq_none_iff] at hfi
    simp only [List.map_append, List.map_cons, List.map_nil]
    rw [List.nodup_append]
    refine ⟨h, List.nodup_singleton _, ?_⟩
    intro a ha hb
    rw [List.mem_singleton] at hb
    subst hb
    obtain ⟨e, he, hre⟩ := List.mem_map.mp ha
    have := hfi e he
    simp only [decide_eq_false_iff_not] at this
    exact this (by rw [hre]; rfl)
  | some idx =>
    obtain ⟨hlt, hpe, -⟩ := List.findIdx?_eq_some_iff_getElem.mp hfi
    simp only [decide_eq_true_eq] at hpe
    have heq : ((s.gameHistory.take idx ++ [finishNewEntry s] ++
        s.gameHistory.drop (idx + 1)).map GameHistoryEntry.round) =
        s.gameHistory.map GameHistoryEntry.round := by
      conv_rhs => rw [show s.gameHistory =
        s.gameHistory.take idx ++ s.gameHistory.drop idx from
          (List.take_append_drop idx s.gameHistory).symm]
      rw [List.drop_eq_getElem_cons hlt]
      simp only [List.map_append, List.map_cons, List.map_nil, List.append_assoc,
        List.nil_append, List.cons_append, List.singleton_append]
      congr 2
      rw [hpe]
      rfl
    rw [heq]
    exact h

lemma inv_finishRound (s s2 : GameState) (h : Inv s) (hg : s.gameStarted = true)
    (hp : s.roundPhase = RoundPhase.scoring) (hok : finishRound s = Except.ok s2) :
    Inv s2 := by
  have hlen := inv_log_length h
  have hnd := nodup_finishUpdatedHistory s h.hist_nodup
  have hidx : stateIdx s = 2 * s.currentRound + 1 := by
    unfold stateIdx cIdx
    rw [hp]
    simp [phaseOffset]
  have hsnapidx : snapIdx (finishSnapshot s) = 2 * s.currentRound + 1 := by
    unfold snapIdx cIdx finishSnapshot
    simp [phaseOffset]
  rw [finishRound] at hok
  by_cases hc1 : finishTotalTricks s ≠ s.currentRound
  · rw [if_pos hc1] at hok
    exact Except.noConfusion hok
  rw [if_neg hc1] at hok
  by_cases hc2 : ¬ ((List.range s.players.length).all fun i => (rget s.roundData i).isSome)
  · rw [if_pos hc2] at hok
    exact Except.noConfusion hok
  rw [if_neg hc2] at hok
  by_cases hc3 : s.currentRound < 10
  · rw [if_pos hc3, Except.ok.injEq] at hok
    subst hok
    have hpush : pushSnapshot s.phaseHistory (finishSnapshot s) =
        s.phaseHistory ++ [finishSnapshot s] := pushSnapshot_of_lt _ _ hlen
    refine ⟨?_, ?_, ?_, ?_, ?_, ?_, ?_, ?_, hnd, ?_⟩
    · show 1 ≤ s.currentRound + 1
      have := h.round_lb
      omega
    · show s.currentRound + 1 ≤ 10
      omega
    · intro hgs
      exact Bool.noConfusion (hg.symm.trans hgs)
    · show ∀ e ∈ pushSnapshot s.phaseHistory (finishSnapshot s), 1 ≤ e.currentRound
      rw [hpush]
      intro e he
      rcases List.mem_append.mp he with he | he
      · exact h.snap_round_lb e he
      · rw [List.mem_singleton] at he
        subst he
        exact h.round_lb
    · show ∀ e ∈ pushSnapshot s.phaseHistory (finishSnapshot s), e.currentRound ≤ 10
      rw [hpush]
      intro e he
      rcases List.mem_append.mp he with he | he
      · exact h.snap_round_ub e he
      · rw [List.mem_singleton] at he
        subst he
        exact h.round_ub
    · show ∀ e ∈ pushSnapshot s.phaseHistory (finishSnapshot s), snapIdx e ≤ 20
      rw [hpush]
      intro e he
      rcases List.mem_append.mp he with he | he
      · exact h.snap_idx_ub e he
      · rw [List.mem_singleton] at he
        subst he
        rw [hsnapidx]
        omega
    · show (pushSnapshot s.phaseHistory (finishSnapshot s)).Pairwise
        (fun a b => snapIdx a < snapIdx b)
      rw [hpush]
      refine List.pairwise_append.mpr ⟨h.chain, List.pairwise_singleton _ _, ?_⟩
      intro a ha b hb
      rw [List.mem_singleton] at hb
      subst hb
      rw [hsnapidx]
      have := h.below a ha
      rw [hidx] at this
      exact this
    · intro e he
      rw [show stateIdx { s with
          gameHistory := finishUpdatedHistory s, players := finishUpdatedPlayers s,
          phaseHistory := pushSnapshot s.phaseHistory (finishSnapshot s),
          roundData := tabulate (finishUpdatedPlayers s).length (fun _ => freshRoundData),
          currentRound := s.currentRound + 1, roundPhase := RoundPhase.bidding } =
          2 * (s.currentRound + 1) from by unfold stateIdx cIdx; simp [phaseOffset]]
      have he2 : e ∈ s.phaseHistory ++ [finishSnapshot s] := by
        rw [← hpush]
        exact he
      rcases List.mem_append.mp he2 with he3 | he3
      · have := h.below e he3
        rw [hidx] at this
        omega
      · rw [List.mem_singleton] at he3
        subst he3
        rw [hsnapidx]
        omega
    · show ∀ e ∈ pushSnapshot s.phaseHistory (finishSnapshot s),
        (e.gameHistory.map GameHistoryEntry.round).Nodup
      rw [hpush]
      intro e he
      rcases List.mem_append.mp he with he | he
      · exact h.snap_hist_nodup e he
      · rw [List.mem_singleton] at he
        subst he
        exact hnd
  · rw [if_neg hc3, Except.ok.injEq] at hok
    subst hok
    refine ⟨h.round_lb, h.round_ub, ?_, h.snap_round_lb, h.snap_round_ub,
      h.snap_idx_ub, h.chain, ?_, hnd, h.snap_hist_nodup⟩
    · intro hgs
      exact Bool.noConfusion (hg.symm.trans hgs)
    · intro e he
      rw [show stateIdx { s with
          gameHistory := finishUpdatedHistory s, players := finishUpdatedPlayers s,
          roundPhase := RoundPhase.complete } = 2 * s.currentRound + 2 from by
        unfold stateIdx cIdx; simp [phaseOffset]]
      have := h.below e he
      rw [hidx] at this
      omega

lemma inv_performUndo (s : GameState) (h : Inv s) (hg : s.gameStarted = true) :
    Inv (performUndo s) := by
  unfold performUndo
  cases hl : s.phaseHistory.getLast? with
  | none => exact h
  | some snap =>
    have hdecomp : s.phaseHistory.dropLast ++ [snap] = s.phaseHistory :=
      List.dropLast_append_getLast? snap (by rw [hl]; rfl)
    have hmem : snap ∈ s.phaseHistory := by
      rw [← hdecomp]
      exact List.mem_append_right _ (List.mem_singleton_self snap)
    have hpw := h.chain
    rw [← hdecomp] at hpw
    have hsplit := List.pairwise_append.mp hpw
    have hsub : ∀ {e}, e ∈ s.phaseHistory.dropLast → e ∈ s.phaseHistory :=
      fun he => (List.dropLast_sublist s.phaseHistory).subset he
    refine ⟨h.snap_round_lb snap hmem, h.snap_round_ub snap hmem, ?_, ?_, ?_, ?_,
      hsplit.1, ?_, h.snap_hist_nodup snap hmem, ?_⟩
    · intro hgs
      exact Bool.noConfusion (hg.symm.trans hgs)
    · intro e he
      exact h.snap_round_lb e (hsub he)
    · intro e he
      exact h.snap_round_ub e (hsub he)
    · intro e he
      exact h.snap_idx_ub e (hsub he)
    · intro e he
      exact hsplit.2.2 e he snap (List.mem_singleton_self snap)
    · intro e he
      exact h.snap_hist_nodup e (hsub he)

lemma inv_endGameEarly (s : GameState) (h : Inv s) (hg : s.gameStarted = true) :
    Inv (endGameEarly s) := by
  refine ⟨h.round_lb, h.round_ub, ?_, h.snap_round_lb, h.snap_round_ub,
    h.snap_idx_ub, h.chain, ?_, h.hist_nodup, h.snap_hist_nodup⟩
  · intro hgs
    exact Bool.noConfusion (hg.symm.trans hgs)
  · intro e he
    have h1 := h.below e he
    have h2 := phaseOffset_le_two s.roundPhase
    show snapIdx e < stateIdx { s with roundPhase := RoundPhase.complete }
    rw [show stateIdx { s with roundPhase := RoundPhase.complete } =
      2 * s.currentRound + 2 from by unfold stateIdx cIdx; simp [phaseOffset]]
    unfold stateIdx cIdx at h1
    omega

lemma inv_resetGame (s : GameState) (h : Inv s) : Inv (resetGame s) := by
  refine ⟨?_, ?_, ?_, ?_, ?_, ?_, ?_, ?_, ?_, ?_⟩ <;> simp [resetGame]

/-- Every state reachable through the user interface satisfies the
invariant: rounds stay in `[1, 10]`, the setup screen always shows round 1
bidding with an empty undo log, the undo log's snapshots sit at strictly
increasing checkpoint indices bounded by 20 and all below the live state's
checkpoint (hence at most 19 snapshots), and every game history — live or
inside a snapshot — has at most one entry per round. -/
theorem reachable_inv {s : GameState} (h : Reachable s) : Inv s := by
  induction h with
  | init => exact inv_initialState
  | stepAddPlayer h hg nm ih => exact inv_addPlayer _ ih nm
  | stepRemovePlayer h hg i ih => exact inv_removePlayer _ ih i
  | stepClearPlayers h hg ih => exact inv_clearPlayers _ ih
  | stepStartGame h hg ih => exact inv_startGame _ ih
  | stepSetBid h hg hp i v ih => exact inv_setBid _ ih i v
  | stepConfirmBids h hg hp ih => exact inv_confirmBids _ ih hg hp
  | stepUpdateTricks h hg hp i d ih => exact inv_updateTricks _ ih i d
  | stepUpdatePirates h hg hp i d ih => exact inv_updatePiratesCapture _ ih i d
  | stepToggleSkullKing h hg hp i ih => exact inv_toggleSkullKingCapture _ ih i
  | stepFinishRound h hg hp hok ih => exact inv_finishRound _ _ ih hg hp hok
  | stepPerformUndo h hg hp ih => exact inv_performUndo _ ih hg
  | stepEndGameEarly h hg hp ih => exact inv_endGameEarly _ ih hg
  | stepResetGame h ih => exact inv_resetGame _ ih

/-! ## Undo round trip: claim C4 -/

/-- C4: in every reachable state, pushing a snapshot and immediately
undoing restores the session state — all seven fields, the undo log
included — structurally equal to the state before the push.  (In this
value-semantics model the deep copies the code performs on snapshot and
restore are identities, so the absence of aliasing is exactly structural
equality of values.)  The proof leans on the reachability invariant: a
reachable log holds at most 19 snapshots, so the push never evicts. -/
theorem snapshot_roundtrip (s : GameState) (h : Reachable s) :
    performUndo (savePhaseSnapshot s) = s := by
  have hlen := inv_log_length (reachable_inv h)
  have hpush : savePhaseSnapshot s =
      { s with phaseHistory := s.phaseHistory ++ [mkSnapshot s] } := by
    unfold savePhaseSnapshot
    rw [pushSnapshot_of_lt _ _ hlen]
  rw [hpush]
  unfold performUndo
  dsimp only
  rw [List.getLast?_concat]
  dsimp only
  rw [List.dropLast_concat]
  rfl

/-- C4 witness: the round trip evaluated at the initial state. -/
theorem snapshot_roundtrip_witness :
    performUndo (savePhaseSnapshot initialState) = initialState :=
  snapshot_roundtrip initialState Reachable.init

/-! ## Start of game: claim C6 -/

/-- C6 counterexample: `startGame` does not write `currentRound` or
`roundPhase`.  On a two-player setup state whose round counter is 5 it
leaves `currentRound = 5` and the phase as it found it, contradicting the
claim that it sets them to 1 and bidding for every state with at least two
players. -/
theorem startGame_not_resetting :
    ¬ ((startGame exLateSetupState).currentRound = 1 ∧
       (startGame exLateSetupState).roundPhase = RoundPhase.bidding) := by
  decide

/-- C6 (amended): `startGame` on at least two players fills `roundData`
with zero/false entries for every player index, clears the undo log and
sets `gameStarted`; it leaves `currentRound` and `roundPhase` untouched —
but on every reachable setup state those already hold 1 and `bidding`, so
the started game does begin at round 1 in the bidding phase. -/
theorem startGame_initializes (s : GameState) (h : Reachable s)
    (hg : s.gameStarted = false) (hp2 : 2 ≤ s.players.length) :
    startGame s = { s with
      roundData := tabulate s.players.length (fun _ => freshRoundData),
      gameStarted := true, phaseHistory := [] } ∧
    (∀ i, i < s.players.length → rget (startGame s).roundData i = some freshRoundData) ∧
    (startGame s).currentRound = 1 ∧
    (startGame s).roundPhase = RoundPhase.bidding ∧
    (startGame s).phaseHistory = [] ∧
    (startGame s).gameStarted = true := by
  have hset := (reachable_inv h).setup_defaults hg
  have hs : startGame s = { s with
      roundData := tabulate s.players.length (fun _ => freshRoundData),
      gameStarted := true, phaseHistory := [] } := by
    unfold startGame
    rw [if_pos hp2]
  refine ⟨hs, ?_, ?_, ?_, ?_, ?_⟩
  · intro i hi
    rw [hs]
    exact rget_tabulate _ _ i hi
  · rw [hs]
    exact hset.1
  · rw [hs]
    exact hset.2.1
  · rw [hs]
  · rw [hs]

/-- C6 witness: starting the game from the freshly entered two-pirate
roster begins round 1 in the bidding phase with a started flag. -/
theorem startGame_initializes_witness :
    (startGame exTwoPlayerSetup).currentRound = 1 ∧
    (startGame exTwoPlayerSetup).roundPhase = RoundPhase.bidding ∧
    (startGame exTwoPlayerSetup).gameStarted = true := by
  have hre : Reachable exTwoPlayerSetup :=
    Reachable.stepAddPlayer (Reachable.stepAddPlayer Reachable.init rfl ("A"))
      (by decide) ("B")
  have h := startGame_initializes exTwoPlayerSetup hre (by decide) (by decide)
  exact ⟨h.2.2.1, h.2.2.2.1, h.2.2.2.2.2⟩

/-! ## History uniqueness and in-place replacement: claim C8 -/

/-- C8: every reachable state's `gameHistory` has at most one entry per
round number; and on a successful `finishRound`, the new entry (keyed by
`currentRound`) replaces an existing entry for that round in place at its
position, or is appended when no such entry exists. -/
theorem history_unique_rounds :
    (∀ s, Reachable s → (s.gameHistory.map GameHistoryEntry.round).Nodup) ∧
    (∀ s, (finishNewEntry s).round = s.currentRound) ∧
    (∀ s s2, finishRound s = Except.ok s2 →
      match s.gameHistory.findIdx? (fun e => e.round = s.currentRound) with
      | some idx => s2.gameHistory =
          s.gameHistory.take idx ++ [finishNewEntry s] ++ s.gameHistory.drop (idx + 1)
      | none => s2.gameHistory = s.gameHistory ++ [finishNewEntry s]) := by
  refine ⟨?_, ?_, ?_⟩
  · intro s h
    exact (reachable_inv h).hist_nodup
  · intro s
    rfl
  · intro s s2 hok
    have hh := (finishRound_ok_shape s s2 hok).2
    rw [hh]
    unfold finishUpdatedHistory
    cases hfi : s.gameHistory.findIdx? (fun e => e.round = s.currentRound) <;> rfl

/-- C8 witness: the empty initial history is duplicate-free, and finishing
the concrete round-1 scenario appends one entry for round 1. -/
theorem history_unique_rounds_witness :
    (initialState.gameHistory.map GameHistoryEntry.round).Nodup ∧
    (finishNewEntry exScoringState).round = exScoringState.currentRound ∧
    exAfterFinish.gameHistory =
      exScoringState.gameHistory ++ [finishNewEntry exScoringState] := by
  have h1 := history_unique_rounds.1 initialState Reachable.init
  have h2 := history_unique_rounds.2.1 exScoringState
  have h3 := history_unique_rounds.2.2 exScoringState exAfterFinish (by decide)
  exact ⟨h1, h2, h3⟩

end SkullKing
